import Mathlib

/-!
Verification of the apcore module-execution framework against its
natural-language specification.

The definitions below are a shallow embedding of the Python sources:

* `src/apcore/utils/pattern.py`  -> `APCore.match_pattern`
* `src/apcore/acl.py`            -> `APCore.ACL.check` and friends
* `src/apcore/context.py`        -> `APCore.Context`
* `src/apcore/executor.py`       -> `APCore.redact_sensitive`, `APCore.checkSafety`,
                                    `APCore.call`, `APCore.callAsync`, `APCore.streamRun`
* `src/apcore/middleware/manager.py` -> `APCore.execute_before` / `execute_after` /
                                    `execute_on_error` (and the async variants)
* `src/apcore/registry/registry.py`  -> `APCore.Registry.register`

Python strings are modelled as `List Char` where character-level operations
matter (the wildcard matcher), and as Lean `String` elsewhere.  Python dicts
are modelled as association lists with unique keys (Python dict semantics:
a lookup returns the unique binding).  Exceptions are modelled with `Except`.
-/

namespace APCore

/-- Python `str` at character granularity (used by the wildcard matcher). -/
abbrev Str := List Char

/-! ### Wildcard pattern matcher (src/apcore/utils/pattern.py) -/

/-- Model of Python `module_id.find(segment, pos)` restricted to the suffix
`hay` that starts at absolute index `i`: returns the smallest absolute index
`≥ i` at which `needle` occurs, or `none`.  (Python returns `-1` for "not
found"; we use `Option`.) -/
def subSearch (needle : Str) : Str → Nat → Option Nat
  | [], i => if needle.isPrefixOf ([] : Str) then some i else none
  | h :: t, i => if needle.isPrefixOf (h :: t) then some i else subSearch needle t (i + 1)

/-- Python `module_id.find(needle, pos)`: search from absolute position `pos`. -/
def findFrom (needle hay : Str) (pos : Nat) : Option Nat :=
  subSearch needle (hay.drop pos) pos

/-- Python `pattern.split("*")`. -/
def splitStar : Str → List Str
  | [] => [[]]
  | c :: rest =>
    if c = '*' then [] :: splitStar rest
    else
      match splitStar rest with
      | [] => [[c]]
      | s :: ss => (c :: s) :: ss

/-- The `for segment in segments[1:]` loop of `match_pattern`: each non-empty
segment must be found at or after `pos`; `pos` advances past the found
occurrence.  Empty segments are skipped (`if not segment: continue`). -/
def segsLoop : List Str → Str → Nat → Bool
  | [], _, _ => true
  | seg :: rest, v, pos =>
    if seg = [] then segsLoop rest v pos
    else
      match findFrom seg v pos with
      | none => false
      | some idx => segsLoop rest v (idx + seg.length)

/-- Embedding of `match_pattern(pattern, module_id)` from
src/apcore/utils/pattern.py.  `segments` is never empty, so `headD` /
`getLastD` model Python's `segments[0]` / `segments[-1]` exactly. -/
def match_pattern (pattern module_id : Str) : Bool :=
  if pattern = ['*'] then true
  else if '*' ∉ pattern then pattern == module_id
  else
    let segments := splitStar pattern
    let startsStar : Bool := pattern.head? = some '*'
    let pos : Nat := if startsStar then 0 else (segments.headD []).length
    if ¬ startsStar ∧ ¬ (segments.headD []).isPrefixOf module_id then false
    else if ¬ segsLoop segments.tail module_id pos then false
    else if pattern.getLast? = some '*' then true
    else (segments.getLastD []).isSuffixOf module_id

/-- Spec-side fragment loop, from the spec's words: "each subsequent fragment
must be found in order after the last match".  Unlike the code's loop it does
not special-case empty fragments (finding an empty fragment succeeds in place,
which is equivalent). -/
def fragLoop : List Str → Str → Nat → Bool
  | [], _, _ => true
  | f :: rest, v, pos =>
    match findFrom f v pos with
    | none => false
    | some idx => fragLoop rest v (idx + f.length)

/-- Modelled from the spec's description of the matcher (§4.2 of the spec):
`*` matches everything; a star-free pattern compares by equality; otherwise
the pattern is split on `*` into literal fragments, the first fragment (if
any) must be a prefix of the value, each subsequent fragment is found in order
after the previous match, and the last fragment (when the pattern does not
end in `*`) must be a suffix of the value. -/
def specMatch (p v : Str) : Bool :=
  if p = ['*'] then true
  else if '*' ∉ p then p == v
  else
    let frags := splitStar p
    (frags.headD []).isPrefixOf v
      && fragLoop frags.tail v (frags.headD []).length
      && (decide (p.getLast? = some '*') || (frags.getLastD []).isSuffixOf v)

theorem splitStar_ne_nil (p : Str) : splitStar p ≠ [] := by
  cases p with
  | nil => simp [splitStar]
  | cons c rest =>
    simp only [splitStar]
    split
    · simp
    · split <;> simp

theorem splitStar_head_of_star (rest : Str) :
    splitStar ('*' :: rest) = [] :: splitStar rest := by
  simp [splitStar]

theorem findFrom_nil (v : Str) (pos : Nat) : findFrom [] v pos = some pos := by
  unfold findFrom
  cases h : v.drop pos with
  | nil => simp [subSearch, List.isPrefixOf]
  | cons a t => simp [subSearch, List.isPrefixOf]

theorem segsLoop_eq_fragLoop (fs : List Str) (v : Str) (pos : Nat) :
    segsLoop fs v pos = fragLoop fs v pos := by
  induction fs generalizing pos with
  | nil => rfl
  | cons f rest ih =>
    by_cases hf : f = []
    · subst hf
      simp [segsLoop, fragLoop, findFrom_nil, ih]
    · simp [segsLoop, fragLoop, hf]
      cases findFrom f v pos with
      | none => rfl
      | some idx => simp [ih]

theorem match_pattern_eq_specMatch (p v : Str) : match_pattern p v = specMatch p v := by
  by_cases h1 : p = ['*']
  · simp [match_pattern, specMatch, h1]
  by_cases h2 : '*' ∈ p
  case neg => simp [match_pattern, specMatch, h1, h2]
  cases p with
  | nil => simp at h2
  | cons c rest =>
    by_cases hc : c = '*'
    · subst hc
      have hh := splitStar_head_of_star rest
      simp only [match_pattern, specMatch, h1, h2, hh, List.headD_cons, List.tail_cons,
        List.head?_cons, segsLoop_eq_fragLoop, List.length_nil, not_false_iff,
        not_true_eq_false, ite_false, ite_true]
      by_cases hloop : fragLoop (splitStar rest) v 0 = true
      · by_cases hlast : ('*' :: rest).getLast? = some '*'
        · simp [hloop, hlast, List.isPrefixOf]
        · by_cases hsuf : (([] :: splitStar rest).getLastD []).isSuffixOf v = true
          · simp [hloop, hlast, hsuf, List.isPrefixOf]
          · simp [hloop, hlast, hsuf, List.isPrefixOf]
      · simp [hloop, List.isPrefixOf]
    · have hhead : (c :: rest).head? = some c := rfl
      simp only [match_pattern, specMatch, h1, h2, hhead, segsLoop_eq_fragLoop,
        not_false_iff, not_true_eq_false, ite_false, ite_true]
      have hcs : (some c = some '*') = False := by simp [hc]
      simp only [hcs, decide_False, Bool.false_eq_true, not_false_iff, true_and,
        ite_false, if_false]
      by_cases hpre : (splitStar (c :: rest)).head?.getD [] <+: v
      · by_cases hloop : fragLoop (splitStar (c :: rest)).tail v
            ((splitStar (c :: rest)).head?.getD []).length = true
        · by_cases hlast : (c :: rest).getLast? = some '*'
          · simp [hpre, hloop, hlast, List.isPrefixOf_iff_prefix,
              List.isSuffixOf_iff_suffix, Bool.and_assoc]
          · by_cases hsuf : (splitStar (c :: rest)).getLast?.getD [] <:+ v
            · simp [hpre, hloop, hlast, hsuf, List.isPrefixOf_iff_prefix,
                List.isSuffixOf_iff_suffix, Bool.and_assoc]
            · simp [hpre, hloop, hlast, hsuf, List.isPrefixOf_iff_prefix,
                List.isSuffixOf_iff_suffix, Bool.and_assoc]
        · simp [hpre, hloop, List.isPrefixOf_iff_prefix, List.isSuffixOf_iff_suffix]
      · simp [hpre, List.isPrefixOf_iff_prefix, List.isSuffixOf_iff_suffix]

/-- Claim C8: the pattern matcher satisfies the spec's characterization:
`match("*", x)` is true for every `x`; a star-free pattern compares by
equality; otherwise the pattern is split on `*` into literal fragments
matched as `specMatch` describes (first fragment prefixes the value,
subsequent fragments found in order, last fragment suffixes the value unless
the pattern ends in `*`, with `*` matching arbitrary runs including dots);
the spec's concrete examples hold. -/
theorem c8_match_pattern_spec :
    (∀ p v, match_pattern p v = specMatch p v)
    ∧ (∀ x, match_pattern ['*'] x = true)
    ∧ (∀ p v : Str, '*' ∉ p → match_pattern p v = (p == v))
    ∧ match_pattern "a.*".data "a.b.c".data = true
    ∧ match_pattern "*.z".data "a.z".data = true
    ∧ match_pattern "a.*.z".data "a.y.z".data = true := by
  refine ⟨match_pattern_eq_specMatch, ?_, ?_, by decide, by decide, by decide⟩
  · intro x
    simp [match_pattern]
  · intro p v hp
    by_cases h1 : p = ['*']
    · subst h1
      simp at hp
    · simp [match_pattern, h1, hp]

/-- Witness for C8 at a concrete star-free pattern. -/
theorem c8_match_pattern_spec_witness :
    '*' ∉ "acl.check".data
    ∧ match_pattern "acl.check".data "acl.check".data
        = ("acl.check".data == "acl.check".data) :=
  ⟨by decide, c8_match_pattern_spec.2.2.1 _ _ (by decide)⟩

/-! ### JSON-like values (Python dict / list / scalar data) -/

/-- Shallow model of the Python values flowing through the pipeline: `None`,
booleans, numbers, strings, lists and dicts (association lists; Python dict
keys are unique). -/
inductive Val where
  | vnull : Val
  | vbool : Bool → Val
  | vnum : Int → Val
  | vstr : String → Val
  | varr : List Val → Val
  | vobj : List (String × Val) → Val

/-- A Python `dict[str, Any]` (inputs, outputs, redacted inputs, ...). -/
abbrev Dict := List (String × Val)

/-- The redaction sentinel `***REDACTED***` (src/apcore/executor.py). -/
def REDACTED_VALUE : String := "***REDACTED***"

/-- Python's `value is not None` test, negated form. -/
def Val.isNull : Val → Bool
  | .vnull => true
  | _ => false

/-! ### Identity and Context (src/apcore/context.py) -/

/-- Embedding of the frozen `Identity` dataclass. -/
structure Identity where
  id : String
  type : String := "user"
  roles : List String := []
  attrs : Dict := []

/-- Embedding of the `Context` dataclass.  The Python `executor`
back-reference and the shared mutable `data` dict are modelled as opaque
reference tokens (`executorRef`, `dataRef`): two contexts alias the same
Python object iff the tokens are equal. -/
structure Context where
  trace_id : String
  caller_id : Option String := none
  call_chain : List String := []
  executorRef : Nat := 0
  identity : Option Identity := none
  redacted_inputs : Option Dict := none
  dataRef : Nat := 0

/-- Embedding of `Context.create`: the generated UUID-v4 trace id and the
fresh `data` dict are supplied by the environment as `freshTrace` and
`freshData`. -/
def Context.create (freshTrace : String) (executorRef : Nat)
    (identity : Option Identity) (freshData : Nat) : Context :=
  { trace_id := freshTrace
    caller_id := none
    call_chain := []
    executorRef := executorRef
    identity := identity
    redacted_inputs := none
    dataRef := freshData }

/-- Embedding of `Context.child` (src/apcore/context.py lines 51-66). -/
def Context.child (ctx : Context) (target_module_id : String) : Context :=
  { trace_id := ctx.trace_id
    caller_id := ctx.call_chain.getLast?
    call_chain := ctx.call_chain ++ [target_module_id]
    executorRef := ctx.executorRef
    identity := ctx.identity
    redacted_inputs := none
    dataRef := ctx.dataRef }

/-- Claim C7: `ctx.child(t)` has `callerId` equal to the last element of
`ctx.callChain` (null when the chain is empty), `callChain` equal to the
parent chain with `t` appended, the same `traceId`, the same `identity`, and
the identical (aliased) `data` reference; the parent's chain is not mutated
(the child's chain is a fresh list extending it). -/
theorem c7_context_child (ctx : Context) (t : String) :
    (ctx.child t).caller_id = ctx.call_chain.getLast?
    ∧ (ctx.call_chain = [] → (ctx.child t).caller_id = none)
    ∧ (∀ x, ctx.call_chain ≠ [] → ctx.call_chain.getLast? = some x →
        (ctx.child t).caller_id = some x)
    ∧ (ctx.child t).call_chain = ctx.call_chain ++ [t]
    ∧ (ctx.child t).trace_id = ctx.trace_id
    ∧ (ctx.child t).identity = ctx.identity
    ∧ (ctx.child t).dataRef = ctx.dataRef
    ∧ (ctx.child t).call_chain.dropLast = ctx.call_chain := by
  refine ⟨rfl, ?_, ?_, rfl, rfl, rfl, rfl, ?_⟩
  · intro h
    simp [Context.child, h]
  · intro x _ hx
    simp [Context.child, hx]
  · simp [Context.child]

/-- Witness for C7 at a concrete context. -/
theorem c7_context_child_witness :
    (({ trace_id := "t", call_chain := ["a", "b"] } : Context).child "c").caller_id
      = some "b" :=
  (c7_context_child { trace_id := "t", call_chain := ["a", "b"] } "c").2.2.1 "b"
    (by decide) (by decide)

/-! ### Access control (src/apcore/acl.py) -/

/-- The recognized keys of an ACL rule's `conditions` mapping.  A field is
`none` when the corresponding key is absent from the Python dict
(unrecognized keys are ignored by `_check_conditions` and are not modelled). -/
structure Conditions where
  identity_types : Option (List String) := none
  roles : Option (List String) := none
  max_call_depth : Option Nat := none

/-- Embedding of the `ACLRule` dataclass. -/
structure ACLRule where
  callers : List String
  targets : List String
  effect : String
  description : String := ""
  conditions : Option Conditions := none

/-- Embedding of the `ACL` class state (the mutex, logger and YAML path are
irrelevant to `check` and omitted). -/
structure ACL where
  rules : List ACLRule
  default_effect : String := "deny"

/-- `match_pattern` lifted to Lean strings. -/
def matchPatternStr (pattern value : String) : Bool :=
  match_pattern pattern.data value.data

/-- Embedding of `ACL._match_pattern`: `@external` and `@system` are handled
locally, all other patterns delegate to the foundation matcher. -/
def ACL.matchOnePattern (pattern value : String) (context : Option Context) : Bool :=
  if pattern = "@external" then value == "@external"
  else if pattern = "@system" then
    match context with
    | none => false
    | some ctx =>
      match ctx.identity with
      | none => false
      | some ident => ident.type == "system"
  else matchPatternStr pattern value

/-- Embedding of `ACL._check_conditions`: with no context every conditions
mapping fails; otherwise `identity_types`, `roles` and `max_call_depth` are
checked in turn. -/
def ACL.checkConditions (conds : Conditions) (context : Option Context) : Bool :=
  match context with
  | none => false
  | some ctx =>
    (match conds.identity_types with
     | none => true
     | some types =>
       match ctx.identity with
       | none => false
       | some ident => types.contains ident.type)
    && (match conds.roles with
        | none => true
        | some rs =>
          match ctx.identity with
          | none => false
          | some ident => ident.roles.any (fun r => rs.contains r))
    && (match conds.max_call_depth with
        | none => true
        | some d => decide (ctx.call_chain.length ≤ d))

/-- Embedding of `ACL._matches_rule`. -/
def ACL.matchesRule (rule : ACLRule) (caller target : String)
    (context : Option Context) : Bool :=
  rule.callers.any (fun p => ACL.matchOnePattern p caller context)
  && rule.targets.any (fun p => ACL.matchOnePattern p target context)
  && (match rule.conditions with
      | none => true
      | some conds => ACL.checkConditions conds context)

/-- The `for rule in rules` loop of `ACL.check`: first matching rule. -/
def ACL.firstMatch (rules : List ACLRule) (caller target : String)
    (context : Option Context) : Option ACLRule :=
  match rules with
  | [] => none
  | r :: rs =>
    if ACL.matchesRule r caller target context then some r
    else ACL.firstMatch rs caller target context

/-- Embedding of `ACL.check` (src/apcore/acl.py lines 145-186). -/
def ACL.check (acl : ACL) (caller_id : Option String) (target_id : String)
    (context : Option Context) : Bool :=
  let effective_caller := caller_id.getD "@external"
  match ACL.firstMatch acl.rules effective_caller target_id context with
  | some rule => rule.effect == "allow"
  | none => acl.default_effect == "allow"

/-- Modelled from the spec (§3 conditions, claim C4): each *present*
condition is evaluated on its own; a condition that requires an identity and
receives none fails, and `max_call_depth` requires a context to read the
chain from.  An empty conditions mapping passes vacuously, even without a
context. -/
def specCondPasses (conds : Conditions) (context : Option Context) : Bool :=
  (match conds.identity_types with
   | none => true
   | some types =>
     match context.bind (fun c => c.identity) with
     | none => false
     | some ident => types.contains ident.type)
  && (match conds.roles with
      | none => true
      | some rs =>
        match context.bind (fun c => c.identity) with
        | none => false
        | some ident => ident.roles.any (fun r => rs.contains r))
  && (match conds.max_call_depth with
      | none => true
      | some d =>
        match context with
        | none => false
        | some ctx => decide (ctx.call_chain.length ≤ d))

/-- Modelled from the spec: rule matching as claim C4 states it — some
caller pattern matches, some target pattern matches, and every condition in
`conditions` passes (`specCondPasses`). -/
def specMatchesRule (rule : ACLRule) (caller target : String)
    (context : Option Context) : Bool :=
  rule.callers.any (fun p => ACL.matchOnePattern p caller context)
  && rule.targets.any (fun p => ACL.matchOnePattern p target context)
  && (match rule.conditions with
      | none => true
      | some conds => specCondPasses conds context)

/-- The spec-side first-match scan. -/
def specFirstMatch (rules : List ACLRule) (caller target : String)
    (context : Option Context) : Option ACLRule :=
  match rules with
  | [] => none
  | r :: rs =>
    if specMatchesRule r caller target context then some r
    else specFirstMatch rs caller target context

/-- Modelled from the spec: `check` as claim C4 states it. -/
def specCheck (acl : ACL) (caller_id : Option String) (target_id : String)
    (context : Option Context) : Bool :=
  let effective_caller := caller_id.getD "@external"
  match specFirstMatch acl.rules effective_caller target_id context with
  | some rule => rule.effect == "allow"
  | none => acl.default_effect == "allow"

/-- Amended rule matching: as claim C4, except that a rule carrying a
conditions mapping (even an empty one) fails whenever no context is
supplied. -/
def specMatchesRuleAmended (rule : ACLRule) (caller target : String)
    (context : Option Context) : Bool :=
  rule.callers.any (fun p => ACL.matchOnePattern p caller context)
  && rule.targets.any (fun p => ACL.matchOnePattern p target context)
  && (match rule.conditions with
      | none => true
      | some conds =>
        match context with
        | none => false
        | some ctx => specCondPasses conds (some ctx))

/-- The amended spec-side first-match scan. -/
def specFirstMatchAmended (rules : List ACLRule) (caller target : String)
    (context : Option Context) : Option ACLRule :=
  match rules with
  | [] => none
  | r :: rs =>
    if specMatchesRuleAmended r caller target context then some r
    else specFirstMatchAmended rs caller target context

/-- Amended `check` model. -/
def specCheckAmended (acl : ACL) (caller_id : Option String) (target_id : String)
    (context : Option Context) : Bool :=
  let effective_caller := caller_id.getD "@external"
  match specFirstMatchAmended acl.rules effective_caller target_id context with
  | some rule => rule.effect == "allow"
  | none => acl.default_effect == "allow"

theorem matchesRule_eq_amended (rule : ACLRule) (caller target : String)
    (context : Option Context) :
    ACL.matchesRule rule caller target context
      = specMatchesRuleAmended rule caller target context := by
  unfold ACL.matchesRule specMatchesRuleAmended
  cases rule.conditions with
  | none => rfl
  | some conds =>
    cases context with
    | none => simp [ACL.checkConditions]
    | some ctx => simp [ACL.checkConditions, specCondPasses, Option.bind]

/-- A rule with an empty (but present) conditions mapping. -/
def c4Rule : ACLRule :=
  { callers := ["*"], targets := ["*"], effect := "allow", conditions := some {} }

/-- A one-rule ACL with default effect deny. -/
def c4Acl : ACL := { rules := [c4Rule], default_effect := "deny" }

/-- Counterexample to claim C4 as stated: for a rule whose conditions
mapping is present but empty and a `check` call with no context, the claim
says every condition passes vacuously, so the rule matches and the allow
effect applies; the code fails the rule (`_check_conditions` returns False
whenever `context is None`) and falls through to the deny default. -/
theorem c4_acl_check_counterexample :
    ACL.check c4Acl none "m" none = false
    ∧ specCheck c4Acl none "m" none = true := by
  constructor <;> decide

/-- Claim C4, amended: as stated, except that a rule carrying a conditions
mapping (even an empty one) fails whenever `check` receives no context. -/
theorem c4_acl_check_amended (acl : ACL) (caller_id : Option String)
    (target_id : String) (context : Option Context) :
    ACL.check acl caller_id target_id context
      = specCheckAmended acl caller_id target_id context := by
  have h : ∀ rules : List ACLRule,
      ACL.firstMatch rules (caller_id.getD "@external") target_id context
        = specFirstMatchAmended rules (caller_id.getD "@external") target_id context := by
    intro rules
    induction rules with
    | nil => rfl
    | cons r rs ih =>
      unfold ACL.firstMatch specFirstMatchAmended
      rw [matchesRule_eq_amended, ih]
  simp only [ACL.check, specCheckAmended, h]

/-! ### Redaction (src/apcore/executor.py, `redact_sensitive`) -/

mutual

/-- The slice of a JSON-Schema dict that `_redact_fields` reads:
`x-sensitive` (strict `is True` check), `type`, `properties`, `items`.
An absent key is the `none` constructor of the corresponding option type.
(`OProps`/`SProps`/`OSchema` are inlined option/list types so that the whole
family is one mutual inductive and recursion over it is structural.) -/
inductive Schema where
  | mk : (xSensitive : Bool) → (type : Option String) →
      (properties : OProps) → (items : OSchema) → Schema

/-- Optional `properties` entry of a schema. -/
inductive OProps where
  | none : OProps
  | some : SProps → OProps

/-- The `properties` mapping: an association list of field name → schema. -/
inductive SProps where
  | nil : SProps
  | cons : String → Schema → SProps → SProps

/-- Optional `items` entry of a schema. -/
inductive OSchema where
  | none : OSchema
  | some : Schema → OSchema

end

mutual

/-- The body of the `for field_name, field_schema in properties.items()` loop
of `_redact_fields`, as the transformation applied to one field's value `v`
under its field schema: sensitive values become the sentinel (None stays
None), object-typed schemas with properties recurse into dict values,
array-typed schemas with items redact sensitive elements or recurse into
dict elements.  (Python's `and`-chained guards are rendered as nested
matches with identical semantics.) -/
def fieldTransform : Schema → Val → Val
  | .mk sens ty props its, v =>
    if sens then (if v.isNull then v else .vstr REDACTED_VALUE)
    else if ty = some "object" then
      match props with
      | .none => v
      | .some ps =>
        match v with
        | .vobj fields => .vobj (fields.map (fun kv => (kv.1, lookupTransform ps kv.1 kv.2)))
        | _ => v
    else if ty = some "array" then
      match its with
      | .none => v
      | .some itemS =>
        match v with
        | .varr elems => .varr (itemsTransform itemS elems)
        | _ => v
    else v

/-- The `# Array: redact items` block of `_redact_fields`: under the items
schema, sensitive items are replaced element-wise (None stays None) and
object-typed item schemas with properties recurse into dict elements. -/
def itemsTransform : Schema → List Val → List Val
  | .mk isens ity iprops _, elems =>
    if isens then
      elems.map (fun x => if x.isNull then x else .vstr REDACTED_VALUE)
    else if ity = some "object" then
      match iprops with
      | .none => elems
      | .some ips =>
        elems.map (fun x =>
          match x with
          | .vobj fs => .vobj (fs.map (fun kv => (kv.1, lookupTransform ips kv.1 kv.2)))
          | _ => x)
    else elems

/-- Python `properties[field_name]` combined with the transformation: the
first schema bound to key `k` transforms `v`; a key absent from `properties`
leaves `v` unchanged. -/
def lookupTransform : SProps → String → Val → Val
  | .nil, _, v => v
  | .cons name fs rest, k, v =>
    if k = name then fieldTransform fs v else lookupTransform rest k v

end

/-- Embedding of `_redact_fields` (top level): no-op without `properties`,
else transform each field of the dict under its schema. -/
def redactFields (s : Schema) (data : Dict) : Dict :=
  match s with
  | .mk _ _ .none _ => data
  | .mk _ _ (.some ps) _ => data.map (fun kv => (kv.1, lookupTransform ps kv.1 kv.2))

/-- Python `key.startswith("_secret_")`, at character granularity so that it
evaluates by computation. -/
def isSecretName (k : String) : Bool :=
  "_secret_".data.isPrefixOf k.data

/-- Embedding of `_redact_secret_prefix`: top-level keys starting with
`_secret_` with non-None values are replaced by the sentinel. -/
def redactSecret (data : Dict) : Dict :=
  data.map (fun kv =>
    if isSecretName kv.1 && !kv.2.isNull then (kv.1, Val.vstr REDACTED_VALUE)
    else kv)

/-- Embedding of `redact_sensitive(data, schema_dict)`
(src/apcore/executor.py lines 45-106).  The Python deep copy plus in-place
mutation is a pure transformation here. -/
def redact_sensitive (data : Dict) (schema_dict : Schema) : Dict :=
  redactSecret (redactFields schema_dict data)

mutual

/-- Modelled from claim C5's words: the sentinel is substituted at the leaves
the schema marks sensitive, recursing into nested objects and element-wise
into arrays (arrays of objects recurse like nested objects).  The flag `rn`
is the one point where the claim and the code differ: with `rn = true`
(claim as stated) a sensitive leaf is substituted even when its value is
None; with `rn = false` (the amendment) None values are left in place. -/
def specFieldVal (rn : Bool) : Schema → Val → Val
  | .mk sens ty props its, v =>
    if sens then (if !rn && v.isNull then v else .vstr REDACTED_VALUE)
    else if ty = some "object" then
      match props with
      | .none => v
      | .some ps =>
        match v with
        | .vobj fields => .vobj (fields.map (fun kv => (kv.1, specLookupVal rn ps kv.1 kv.2)))
        | _ => v
    else if ty = some "array" then
      match its with
      | .none => v
      | .some itemS =>
        match v with
        | .varr elems => .varr (specItemsVal rn itemS elems)
        | _ => v
    else v

/-- Spec-side element-wise substitution for arrays. -/
def specItemsVal (rn : Bool) : Schema → List Val → List Val
  | .mk isens ity iprops _, elems =>
    if isens then
      elems.map (fun x => if !rn && x.isNull then x else .vstr REDACTED_VALUE)
    else if ity = some "object" then
      match iprops with
      | .none => elems
      | .some ips =>
        elems.map (fun x =>
          match x with
          | .vobj fs => .vobj (fs.map (fun kv => (kv.1, specLookupVal rn ips kv.1 kv.2)))
          | _ => x)
    else elems

/-- Spec-side field lookup: the schema bound to key `k` (if any) governs the
substitution at that field. -/
def specLookupVal (rn : Bool) : SProps → String → Val → Val
  | .nil, _, v => v
  | .cons name fs rest, k, v =>
    if k = name then specFieldVal rn fs v else specLookupVal rn rest k v

end

/-- Spec-side redaction (claim C5): schema-driven substitution on every
field, then substitution at every top-level key beginning with `_secret_`
(with `rn = true` even at None values, with `rn = false` only at non-None
values). -/
def specRedact (rn : Bool) (data : Dict) (s : Schema) : Dict :=
  let fieldsDone : Dict :=
    match s with
    | .mk _ _ .none _ => data
    | .mk _ _ (.some ps) _ => data.map (fun kv => (kv.1, specLookupVal rn ps kv.1 kv.2))
  fieldsDone.map (fun kv =>
    if isSecretName kv.1 && (rn || !kv.2.isNull) then (kv.1, Val.vstr REDACTED_VALUE)
    else kv)

mutual

theorem eqSpecF : ∀ (fs : Schema) (v : Val), fieldTransform fs v = specFieldVal false fs v
  | .mk sens ty .none .none, v => by
    simp only [fieldTransform, specFieldVal]
    simp
  | .mk sens ty .none (.some itemS), v => by
    have ihI := eqSpecI itemS
    simp only [fieldTransform, specFieldVal]
    cases v <;> simp [ihI]
  | .mk sens ty (.some ps) .none, v => by
    have ihL : ∀ (kv : String × Val),
        lookupTransform ps kv.1 kv.2 = specLookupVal false ps kv.1 kv.2 :=
      fun kv => eqSpecL ps kv.1 kv.2
    simp only [fieldTransform, specFieldVal]
    cases v <;> simp [ihL]
  | .mk sens ty (.some ps) (.some itemS), v => by
    have ihI := eqSpecI itemS
    have ihL : ∀ (kv : String × Val),
        lookupTransform ps kv.1 kv.2 = specLookupVal false ps kv.1 kv.2 :=
      fun kv => eqSpecL ps kv.1 kv.2
    simp only [fieldTransform, specFieldVal]
    cases v <;> simp [ihI, ihL]

theorem eqSpecI : ∀ (s : Schema) (elems : List Val),
    itemsTransform s elems = specItemsVal false s elems
  | .mk isens ity .none iits, elems => by
    simp only [itemsTransform, specItemsVal]
    simp
  | .mk isens ity (.some ips) iits, elems => by
    have ihL : ∀ (kv : String × Val),
        lookupTransform ips kv.1 kv.2 = specLookupVal false ips kv.1 kv.2 :=
      fun kv => eqSpecL ips kv.1 kv.2
    simp only [itemsTransform, specItemsVal]
    simp [ihL]

theorem eqSpecL : ∀ (ps : SProps) (k : String) (v : Val),
    lookupTransform ps k v = specLookupVal false ps k v
  | .nil, _, _ => rfl
  | .cons name fs rest, k, v => by
    have ihF := eqSpecF fs v
    have ihL := eqSpecL rest k v
    simp only [lookupTransform, specLookupVal]
    by_cases hk : k = name <;> simp [hk, ihF, ihL]

end

theorem fieldTransform_null : ∀ (fs : Schema), fieldTransform fs .vnull = .vnull
  | .mk sens ty .none .none => by simp [fieldTransform, Val.isNull]
  | .mk sens ty .none (.some itemS) => by simp [fieldTransform, Val.isNull]
  | .mk sens ty (.some ps) .none => by simp [fieldTransform, Val.isNull]
  | .mk sens ty (.some ps) (.some itemS) => by simp [fieldTransform, Val.isNull]

theorem fieldTransform_redacted : ∀ (fs : Schema),
    fieldTransform fs (.vstr REDACTED_VALUE) = .vstr REDACTED_VALUE
  | .mk sens ty .none .none => by simp [fieldTransform, Val.isNull]
  | .mk sens ty .none (.some itemS) => by simp [fieldTransform, Val.isNull]
  | .mk sens ty (.some ps) .none => by simp [fieldTransform, Val.isNull]
  | .mk sens ty (.some ps) (.some itemS) => by simp [fieldTransform, Val.isNull]

theorem lookupTransform_null : ∀ (ps : SProps) (k : String),
    lookupTransform ps k .vnull = .vnull
  | .nil, _ => rfl
  | .cons name fs rest, k => by
    simp [lookupTransform, fieldTransform_null fs, lookupTransform_null rest k]

theorem lookupTransform_redacted : ∀ (ps : SProps) (k : String),
    lookupTransform ps k (.vstr REDACTED_VALUE) = .vstr REDACTED_VALUE
  | .nil, _ => rfl
  | .cons name fs rest, k => by
    simp [lookupTransform, fieldTransform_redacted fs, lookupTransform_redacted rest k]

mutual

theorem idemF : ∀ (fs : Schema) (v : Val),
    fieldTransform fs (fieldTransform fs v) = fieldTransform fs v
  | .mk sens ty .none .none, v => by
    cases sens <;> cases v <;> simp [fieldTransform, Val.isNull]
  | .mk sens ty .none (.some itemS), v => by
    have ihI := idemI itemS
    cases sens
    · by_cases hobj : ty = some "object"
      · cases v <;> simp [fieldTransform, hobj, Val.isNull]
      · by_cases harr : ty = some "array"
        · cases v <;> simp [fieldTransform, hobj, harr, Val.isNull, ihI]
        · cases v <;> simp [fieldTransform, hobj, harr, Val.isNull]
    · cases v <;> simp [fieldTransform, Val.isNull]
  | .mk sens ty (.some ps) .none, v => by
    have ihL : ∀ (k : String) (w : Val),
        lookupTransform ps k (lookupTransform ps k w) = lookupTransform ps k w :=
      fun k w => idemL ps k w
    cases sens
    · by_cases hobj : ty = some "object"
      · cases v <;>
          simp [fieldTransform, hobj, Val.isNull, List.map_map, Function.comp, ihL]
      · cases v <;> simp [fieldTransform, hobj, Val.isNull]
    · cases v <;> simp [fieldTransform, Val.isNull]
  | .mk sens ty (.some ps) (.some itemS), v => by
    have ihI := idemI itemS
    have ihL : ∀ (k : String) (w : Val),
        lookupTransform ps k (lookupTransform ps k w) = lookupTransform ps k w :=
      fun k w => idemL ps k w
    cases sens
    · by_cases hobj : ty = some "object"
      · cases v <;>
          simp [fieldTransform, hobj, Val.isNull, List.map_map, Function.comp, ihL]
      · by_cases harr : ty = some "array"
        · cases v <;> simp [fieldTransform, hobj, harr, Val.isNull, ihI]
        · cases v <;> simp [fieldTransform, hobj, harr, Val.isNull]
    · cases v <;> simp [fieldTransform, Val.isNull]

theorem idemI : ∀ (s : Schema) (elems : List Val),
    itemsTransform s (itemsTransform s elems) = itemsTransform s elems
  | .mk isens ity .none iits, elems => by
    cases isens
    · simp [itemsTransform]
    · simp only [itemsTransform, if_true, Val.isNull, List.map_map]
      apply List.map_congr_left
      intro x _
      cases x <;> simp [Val.isNull, Function.comp]
  | .mk isens ity (.some ips) iits, elems => by
    have ihL : ∀ (k : String) (w : Val),
        lookupTransform ips k (lookupTransform ips k w) = lookupTransform ips k w :=
      fun k w => idemL ips k w
    cases isens
    · by_cases hobj : ity = some "object"
      · simp only [itemsTransform, hobj, if_true, Bool.false_eq_true, if_false,
          ite_false, ite_true, List.map_map]
        apply List.map_congr_left
        intro x _
        cases x <;> simp [Val.isNull, Function.comp, List.map_map, ihL]
      · simp [itemsTransform, hobj]
    · simp only [itemsTransform, if_true, List.map_map]
      apply List.map_congr_left
      intro x _
      cases x <;> simp [Val.isNull, Function.comp]

theorem idemL : ∀ (ps : SProps) (k : String) (v : Val),
    lookupTransform ps k (lookupTransform ps k v) = lookupTransform ps k v
  | .nil, _, _ => rfl
  | .cons name fs rest, k, v => by
    have ihF := idemF fs v
    have ihL := idemL rest k v
    by_cases hk : k = name <;> simp [lookupTransform, hk, ihF, ihL]

end

/-- `isNull` characterizes the `vnull` constructor. -/
theorem Val.isNull_iff (v : Val) : v.isNull = true ↔ v = .vnull := by
  cases v <;> simp [Val.isNull]

theorem redact_sensitive_eq_specRedact (d : Dict) (s : Schema) :
    redact_sensitive d s = specRedact false d s := by
  rcases s with ⟨sens, ty, props, its⟩
  cases props with
  | none => simp [redact_sensitive, redactFields, redactSecret, specRedact]
  | some ps =>
    have hL : ∀ (k : String) (w : Val),
        lookupTransform ps k w = specLookupVal false ps k w :=
      fun k w => eqSpecL ps k w
    simp [redact_sensitive, redactFields, redactSecret, specRedact, hL]

/-- Claim C9: `redact_sensitive` is idempotent. -/
theorem c9_redact_sensitive_idempotent (d : Dict) (s : Schema) :
    redact_sensitive (redact_sensitive d s) s = redact_sensitive d s := by
  rcases s with ⟨sens, ty, props, its⟩
  cases props with
  | none =>
    simp only [redact_sensitive, redactFields, redactSecret, List.map_map]
    apply List.map_congr_left
    intro kv _
    simp only [Function.comp_apply]
    cases hsec : isSecretName kv.1 with
    | false => simp [hsec]
    | true =>
      cases hnull : kv.2.isNull with
      | false => simp [hsec, hnull, Val.isNull]
      | true => simp [hsec, hnull]
  | some ps =>
    induction d with
    | nil => rfl
    | cons kv t ih =>
      simp only [redact_sensitive, redactFields, redactSecret, List.map_cons] at ih ⊢
      rw [List.cons_eq_cons]
      refine ⟨?_, ih⟩
      cases hsec : isSecretName kv.1 with
      | false => simp [hsec, idemL]
      | true =>
        cases hnull : (lookupTransform ps kv.1 kv.2).isNull with
        | false => simp [hsec, hnull, lookupTransform_redacted, Val.isNull]
        | true =>
          rw [Val.isNull_iff] at hnull
          simp [hsec, hnull, lookupTransform_null, Val.isNull]

/-- The login schema of the spec scenario with a sensitive `password` leaf. -/
def c5Schema : Schema :=
  .mk false none (.some (.cons "password" (.mk true none .none .none) .nil)) .none

/-- A login call whose password is None. -/
def c5Data : Dict := [("password", .vnull)]

/-- Counterexample to claim C5 as stated: at a sensitive leaf holding None,
the claim's reading substitutes the sentinel, but the code leaves None in
place (`_redact_fields` only replaces values that are `not None`). -/
theorem c5_redaction_counterexample :
    redact_sensitive c5Data c5Schema = [("password", Val.vnull)]
    ∧ specRedact true c5Data c5Schema = [("password", Val.vstr REDACTED_VALUE)]
    ∧ Val.vnull ≠ Val.vstr REDACTED_VALUE := by
  refine ⟨rfl, rfl, by simp⟩

/-! ### Middleware manager and the executor pipeline
(src/apcore/middleware/manager.py, src/apcore/executor.py) -/

/-- Pipeline errors.  `exn tag` stands for an arbitrary exception raised by a
hook or a module body; the other constructors are the executor's own error
types. -/
inductive Err where
  | depthExceeded : Err
  | circularCall : Err
  | freqExceeded : Err
  | moduleNotFound : Err
  | aclDenied : Err
  | inputInvalid : Err
  | outputInvalid : Err
  | exn : String → Err
  deriving DecidableEq

/-- Observable hook invocations, for stating ordering properties. -/
inductive Ev where
  | before : String → Ev
  | after : String → Ev
  | onError : String → Ev
  | exec : Ev
  deriving DecidableEq

/-- A middleware: named, with the three hooks.  A hook returns
`.error e` when it raises, `.ok none` for "no modification" (None), and
`.ok (some d)` for a replacement dict. -/
structure Middleware where
  name : String
  before : String → Dict → Context → Except Err (Option Dict) :=
    fun _ _ _ => .ok none
  after : String → Dict → Dict → Context → Except Err (Option Dict) :=
    fun _ _ _ _ => .ok none
  on_error : String → Dict → Err → Context → Except Err (Option Dict) :=
    fun _ _ _ _ => .ok none

/-- Embedding of `MiddlewareManager.execute_before`: registration order, the
middleware is appended to the executed list *before* its `before` runs, a
raise wraps the original error and the executed list (the
`MiddlewareChainError`). -/
def execute_before (mws : List Middleware) (mid : String) (inputs : Dict)
    (ctx : Context) : List Ev × Except (Err × List Middleware) (Dict × List Middleware) :=
  match mws with
  | [] => ([], .ok (inputs, []))
  | mw :: rest =>
    match mw.before mid inputs ctx with
    | .error e => ([.before mw.name], .error (e, [mw]))
    | .ok r =>
      match execute_before rest mid (r.getD inputs) ctx with
      | (evs, .error (e, executed)) => (.before mw.name :: evs, .error (e, mw :: executed))
      | (evs, .ok (fin, executed)) => (.before mw.name :: evs, .ok (fin, mw :: executed))

/-- The loop body of `MiddlewareManager.execute_after` over an
already-reversed list. -/
def execAfterRev (mws : List Middleware) (mid : String) (inputs output : Dict)
    (ctx : Context) : List Ev × Except Err Dict :=
  match mws with
  | [] => ([], .ok output)
  | mw :: rest =>
    match mw.after mid inputs output ctx with
    | .error e => ([.after mw.name], .error e)
    | .ok r =>
      match execAfterRev rest mid inputs (r.getD output) ctx with
      | (evs, res) => (.after mw.name :: evs, res)

/-- Embedding of `MiddlewareManager.execute_after`: reverse registration
order; an exception propagates immediately. -/
def execute_after (mws : List Middleware) (mid : String) (inputs output : Dict)
    (ctx : Context) : List Ev × Except Err Dict :=
  execAfterRev mws.reverse mid inputs output ctx

/-- The loop body of `MiddlewareManager.execute_on_error` over the
already-reversed executed list: a raising handler is logged and skipped, the
first recovery dict ends the cascade. -/
def execOnErrRev (mws : List Middleware) (mid : String) (inputs : Dict)
    (err : Err) (ctx : Context) : List Ev × Option Dict :=
  match mws with
  | [] => ([], none)
  | mw :: rest =>
    match mw.on_error mid inputs err ctx with
    | .ok (some recovery) => ([.onError mw.name], some recovery)
    | .ok none =>
      match execOnErrRev rest mid inputs err ctx with
      | (evs, r) => (.onError mw.name :: evs, r)
    | .error _ =>
      match execOnErrRev rest mid inputs err ctx with
      | (evs, r) => (.onError mw.name :: evs, r)

/-- Embedding of `MiddlewareManager.execute_on_error` (the async variant
`_execute_on_error_async` has the same observable semantics: a non-dict /
None result continues, a raising handler is logged and skipped).  Iterates
the *executed* list in reverse. -/
def execute_on_error (mid : String) (inputs : Dict) (err : Err) (ctx : Context)
    (executed : List Middleware) : List Ev × Option Dict :=
  execOnErrRev executed.reverse mid inputs err ctx

/-- The inlined before-loop of `Executor.call_async` (and `stream`): unlike
`MiddlewareManager.execute_before`, the middleware is appended to the
executed list only *after* its `before` returns, and the raw exception
carries the executed list plus the inputs as transformed so far. -/
def asyncBeforeLoop (mws : List Middleware) (mid : String) (inputs : Dict)
    (ctx : Context) : List Ev × Except (Err × List Middleware × Dict) (Dict × List Middleware) :=
  match mws with
  | [] => ([], .ok (inputs, []))
  | mw :: rest =>
    match mw.before mid inputs ctx with
    | .error e => ([.before mw.name], .error (e, [], inputs))
    | .ok r =>
      match asyncBeforeLoop rest mid (r.getD inputs) ctx with
      | (evs, .error (e, executed, cur)) => (.before mw.name :: evs, .error (e, mw :: executed, cur))
      | (evs, .ok (fin, executed)) => (.before mw.name :: evs, .ok (fin, mw :: executed))

/-- Validation surface of a module's input schema: the pydantic
`model_validate` outcome and the `model_json_schema()` projection used for
redaction. -/
structure InputSchema where
  validate : Dict → Bool
  jsonSchema : Schema

/-- A module: schemas, a (possibly raising) `execute`, and an optional
`stream` producing chunks and then possibly raising. -/
structure Module where
  input_schema : Option InputSchema := none
  output_schema : Option (Dict → Bool) := none
  execute : Dict → Context → Except Err Dict := fun _ _ => .ok []
  streamFn : Option (Dict → Context → List Dict × Option Err) := none

/-- Executor state: registry lookup, middleware list, optional ACL and the
two call-chain budgets. -/
structure Exec where
  registry : String → Option Module
  middlewares : List Middleware := []
  acl : Option ACL := none
  max_call_depth : Nat := 32
  max_module_repeat : Nat := 3

/-- Python `prior_chain[last_idx + 1 :]` where `last_idx` is the index of
the most recent occurrence of `mid` in `prior`: the segment strictly after
the last occurrence. -/
def suffixAfterLast (mid : String) (prior : List String) : List String :=
  (prior.reverse.takeWhile (fun x => x ≠ mid)).reverse

/-- Embedding of `Executor._check_safety` (src/apcore/executor.py lines
364-397): depth check, then circular-call detection on the chain minus its
last element, then the frequency check. -/
def checkSafety (maxDepth maxRepeat : Nat) (module_id : String)
    (call_chain : List String) : Option Err :=
  if call_chain.length > maxDepth then some .depthExceeded
  else
    let prior := call_chain.dropLast
    if module_id ∈ prior ∧ suffixAfterLast module_id prior ≠ [] then some .circularCall
    else if call_chain.count module_id > maxRepeat then some .freqExceeded
    else none

/-- Step 1 of the pipeline: derive the child context (creating a root
context first when none was passed; the fresh UUID-v4 and fresh data dict
are supplied by the environment). -/
def derivedCtx (context : Option Context) (freshTrace : String) (freshData : Nat)
    (module_id : String) : Context :=
  match context with
  | none => (Context.create freshTrace 0 none freshData).child module_id
  | some c => c.child module_id

/-- Steps 2-5 shared by all three entrypoints: safety checks, lookup, ACL,
input validation and redaction.  Returns the module and the context (with
`redacted_inputs` populated) or the pre-middleware error. -/
def preamble (ex : Exec) (module_id : String) (inputs : Dict)
    (context : Option Context) (freshTrace : String) (freshData : Nat) :
    Except Err (Module × Context) :=
  let ctx0 := derivedCtx context freshTrace freshData module_id
  match checkSafety ex.max_call_depth ex.max_module_repeat module_id ctx0.call_chain with
  | some e => .error e
  | none =>
    match ex.registry module_id with
    | none => .error .moduleNotFound
    | some m =>
      let aclOk :=
        match ex.acl with
        | none => true
        | some acl => acl.check ctx0.caller_id module_id (some ctx0)
      if !aclOk then .error .aclDenied
      else
        match m.input_schema with
        | none => .ok (m, ctx0)
        | some isch =>
          if !isch.validate inputs then .error .inputInvalid
          else
            .ok (m, { ctx0 with
              redacted_inputs := some (redact_sensitive inputs isch.jsonSchema) })

/-- Steps 7-9 shared by `call` and `callAsync`: module execution, output
validation, after-chain. -/
def steps789 (ex : Exec) (m : Module) (mid : String) (inputs : Dict)
    (ctx : Context) : List Ev × Except Err Dict :=
  match m.execute inputs ctx with
  | .error e => ([.exec], .error e)
  | .ok out =>
    match m.output_schema with
    | some ov =>
      if !ov out then ([.exec], .error .outputInvalid)
      else
        match execute_after ex.middlewares mid inputs out ctx with
        | (aevs, ares) => (.exec :: aevs, ares)
    | none =>
      match execute_after ex.middlewares mid inputs out ctx with
      | (aevs, ares) => (.exec :: aevs, ares)

/-- Embedding of `Executor.call` (src/apcore/executor.py lines 215-324). -/
def call (ex : Exec) (module_id : String) (inputs : Dict)
    (context : Option Context) (freshTrace : String) (freshData : Nat) :
    List Ev × Except Err Dict :=
  match preamble ex module_id inputs context freshTrace freshData with
  | .error e => ([], .error e)
  | .ok (m, ctx) =>
    match execute_before ex.middlewares module_id inputs ctx with
    | (bevs, .error (orig, executed)) =>
      match execute_on_error module_id inputs orig ctx executed with
      | (cevs, some recovery) => (bevs ++ cevs, .ok recovery)
      | (cevs, none) => (bevs ++ cevs, .error orig)
    | (bevs, .ok (inputs2, executed)) =>
      match steps789 ex m module_id inputs2 ctx with
      | (evs, .ok out) => (bevs ++ evs, .ok out)
      | (evs, .error e) =>
        if executed.isEmpty then (bevs ++ evs, .error e)
        else
          match execute_on_error module_id inputs2 e ctx executed with
          | (cevs, some recovery) => (bevs ++ evs ++ cevs, .ok recovery)
          | (cevs, none) => (bevs ++ evs ++ cevs, .error e)

/-- Embedding of `Executor.call_async` (src/apcore/executor.py lines
498-609): the ten steps with the inlined before-loop (append after the hook
returns) and the raw-exception recovery path. -/
def callAsync (ex : Exec) (module_id : String) (inputs : Dict)
    (context : Option Context) (freshTrace : String) (freshData : Nat) :
    List Ev × Except Err Dict :=
  match preamble ex module_id inputs context freshTrace freshData with
  | .error e => ([], .error e)
  | .ok (m, ctx) =>
    match asyncBeforeLoop ex.middlewares module_id inputs ctx with
    | (bevs, .error (e, executed, cur)) =>
      if executed.isEmpty then (bevs, .error e)
      else
        match execute_on_error module_id cur e ctx executed with
        | (cevs, some recovery) => (bevs ++ cevs, .ok recovery)
        | (cevs, none) => (bevs ++ cevs, .error e)
    | (bevs, .ok (inputs2, executed)) =>
      match steps789 ex m module_id inputs2 ctx with
      | (evs, .ok out) => (bevs ++ evs, .ok out)
      | (evs, .error e) =>
        if executed.isEmpty then (bevs ++ evs, .error e)
        else
          match execute_on_error module_id inputs2 e ctx executed with
          | (cevs, some recovery) => (bevs ++ evs ++ cevs, .ok recovery)
          | (cevs, none) => (bevs ++ evs ++ cevs, .error e)

/-- Python `{**accumulated, **chunk}`: left entries updated by the right
dict, new right keys appended in order. -/
def dlookup : Dict → String → Option Val
  | [], _ => none
  | kv :: rest, k => if kv.1 = k then some kv.2 else dlookup rest k

/-- Membership of a key in a dict. -/
def hasKey (d : Dict) (k : String) : Bool :=
  (dlookup d k).isSome

/-- Python dict merge `{**a, **b}`. -/
def dictMerge (a b : Dict) : Dict :=
  a.map (fun kv => (kv.1, (dlookup b kv.1).getD kv.2))
    ++ b.filter (fun kv => !hasKey a kv.1)

/-- Embedding of `Executor.stream` (src/apcore/executor.py lines 611-768).
The result is the yielded chunk list plus `some e` when the generator
re-raises after its chunks. -/
def streamRun (ex : Exec) (module_id : String) (inputs : Dict)
    (context : Option Context) (freshTrace : String) (freshData : Nat) :
    List Ev × List Dict × Option Err :=
  match preamble ex module_id inputs context freshTrace freshData with
  | .error e => ([], [], some e)
  | .ok (m, ctx) =>
    match asyncBeforeLoop ex.middlewares module_id inputs ctx with
    | (bevs, .error (e, executed, cur)) =>
      if executed.isEmpty then (bevs, [], some e)
      else
        match execute_on_error module_id cur e ctx executed with
        | (cevs, some recovery) => (bevs ++ cevs, [recovery], none)
        | (cevs, none) => (bevs ++ cevs, [], some e)
    | (bevs, .ok (inputs2, executed)) =>
      match m.streamFn with
      | none =>
        match steps789 ex m module_id inputs2 ctx with
        | (evs, .ok out) => (bevs ++ evs, [out], none)
        | (evs, .error e) =>
          if executed.isEmpty then (bevs ++ evs, [], some e)
          else
            match execute_on_error module_id inputs2 e ctx executed with
            | (cevs, some recovery) => (bevs ++ evs ++ cevs, [recovery], none)
            | (cevs, none) => (bevs ++ evs ++ cevs, [], some e)
      | some sf =>
        match sf inputs2 ctx with
        | (chunks, some e) =>
          if executed.isEmpty then (bevs, chunks, some e)
          else
            match execute_on_error module_id inputs2 e ctx executed with
            | (cevs, some recovery) => (bevs ++ cevs, chunks ++ [recovery], none)
            | (cevs, none) => (bevs ++ cevs, chunks, some e)
        | (chunks, none) =>
          let accumulated := chunks.foldl dictMerge []
          let tail8 : List Ev × Except Err Dict :=
            match m.output_schema with
            | some ov =>
              if !ov accumulated then ([], .error .outputInvalid)
              else execute_after ex.middlewares module_id inputs2 accumulated ctx
            | none => execute_after ex.middlewares module_id inputs2 accumulated ctx
          match tail8 with
          | (aevs, .ok _) => (bevs ++ aevs, chunks, none)
          | (aevs, .error e) =>
            if executed.isEmpty then (bevs ++ aevs, chunks, some e)
            else
              match execute_on_error module_id inputs2 e ctx executed with
              | (cevs, some recovery) => (bevs ++ aevs ++ cevs, chunks ++ [recovery], none)
              | (cevs, none) => (bevs ++ aevs ++ cevs, chunks, some e)

/-- Modelled from claim C3's words: `mid` occurs in the prior chain with at
least one different module id strictly between the most recent prior
occurrence and the tail. -/
def specCircular (mid : String) (prior : List String) : Prop :=
  ∃ l r, prior = l ++ mid :: r ∧ mid ∉ r ∧ ∃ x ∈ r, x ≠ mid

theorem takeWhile_all_stop (p : String → Bool) (l1 : List String) (x : String)
    (l2 : List String) (hall : ∀ y ∈ l1, p y = true) (hx : p x = false) :
    (l1 ++ x :: l2).takeWhile p = l1 := by
  induction l1 with
  | nil => simp [List.takeWhile_cons, hx]
  | cons y ys ih =>
    have hy : p y = true := hall y (List.mem_cons_self y ys)
    simp only [List.cons_append, List.takeWhile_cons, hy, ite_true]
    rw [ih (fun z hz => hall z (List.mem_cons_of_mem y hz))]

theorem exists_last_occ (mid : String) (l : List String) (h : mid ∈ l) :
    ∃ s t, l = s ++ mid :: t ∧ mid ∉ t := by
  induction l using List.reverseRecOn with
  | nil => cases h
  | append_singleton l a ih =>
    by_cases ha : a = mid
    · exact ⟨l, [], by simp [ha], by simp⟩
    · have hl : mid ∈ l := by
        rcases List.mem_append.mp h with hm | hm
        · exact hm
        · simp at hm
          exact absurd hm.symm ha
      obtain ⟨s, t, heq, hnt⟩ := ih hl
      refine ⟨s, t ++ [a], by simp [heq], ?_⟩
      simp [hnt]
      intro hc
      exact ha hc.symm

theorem suffixAfterLast_eq (mid : String) (s t : List String) (hnt : mid ∉ t) :
    suffixAfterLast mid (s ++ mid :: t) = t := by
  unfold suffixAfterLast
  have : (s ++ mid :: t).reverse = t.reverse ++ mid :: s.reverse := by simp
  rw [this, takeWhile_all_stop _ t.reverse mid s.reverse ?_ (by simp)]
  · simp
  · intro y hy
    simp only [decide_eq_true_eq]
    intro hc
    exact hnt (by simpa [hc] using List.mem_reverse.mp hy)

theorem circularCond_iff (mid : String) (prior : List String) :
    (mid ∈ prior ∧ suffixAfterLast mid prior ≠ []) ↔ specCircular mid prior := by
  constructor
  · rintro ⟨hmem, hne⟩
    obtain ⟨s, t, heq, hnt⟩ := exists_last_occ mid prior hmem
    subst heq
    rw [suffixAfterLast_eq mid s t hnt] at hne
    rcases t with _ | ⟨x, t'⟩
    · exact absurd rfl hne
    · refine ⟨s, x :: t', rfl, hnt, x, List.mem_cons_self x t', ?_⟩
      intro hc
      exact hnt (by simp [hc])
  · rintro ⟨l, r, heq, hnr, x, hxr, hxne⟩
    subst heq
    constructor
    · simp
    · rw [suffixAfterLast_eq mid l r hnr]
      intro hc
      subst hc
      cases hxr

/-- Claim C3: the executor raises circular-call iff `mid` occurs in the
chain minus its last element with at least one different module id strictly
between the most recent prior occurrence and the tail (given the chain
passes the depth check); the spec's concrete chains behave as stated; a
safety-check error is raised before any middleware runs, in all three
entrypoints. -/
theorem c3_circular_call :
    (∀ (maxD maxR : Nat) (chain : List String) (mid : String),
      (chain ++ [mid]).length ≤ maxD →
      (checkSafety maxD maxR mid (chain ++ [mid]) = some .circularCall
        ↔ specCircular mid chain))
    ∧ checkSafety 32 3 "A" ["A", "B", "A"] = some .circularCall
    ∧ checkSafety 32 3 "A" ["A", "B", "C", "A"] = some .circularCall
    ∧ checkSafety 32 3 "A" ["A", "A"] = none
    ∧ checkSafety 32 3 "A" ["A", "A", "A"] = none
    ∧ (∀ (ex : Exec) (mid : String) (inputs : Dict) (pctx : Option Context)
        (ft : String) (fd : Nat) (e : Err),
        checkSafety ex.max_call_depth ex.max_module_repeat mid
            (derivedCtx pctx ft fd mid).call_chain = some e →
        call ex mid inputs pctx ft fd = ([], .error e)
        ∧ callAsync ex mid inputs pctx ft fd = ([], .error e)
        ∧ streamRun ex mid inputs pctx ft fd = ([], [], some e)) := by
  refine ⟨?_, by decide, by decide, by decide, by decide, ?_⟩
  · intro maxD maxR chain mid hlen
    unfold checkSafety
    rw [if_neg (by omega)]
    rw [List.dropLast_concat]
    by_cases hcond : mid ∈ chain ∧ suffixAfterLast mid chain ≠ []
    · rw [if_pos hcond]
      simp [(circularCond_iff mid chain).mp hcond]
    · rw [if_neg hcond]
      constructor
      · intro hfreq
        by_cases hc : (chain ++ [mid]).count mid > maxR
        · rw [if_pos hc] at hfreq
          cases hfreq
        · rw [if_neg hc] at hfreq
          cases hfreq
      · intro hspec
        exact absurd ((circularCond_iff mid chain).mpr hspec) hcond
  · intro ex mid inputs pctx ft fd e h
    refine ⟨?_, ?_, ?_⟩ <;>
      simp only [call, callAsync, streamRun, preamble, h]

/-- Witness for C3 at the chain `[A, B, A]`. -/
theorem c3_circular_call_witness :
    (["A", "B"] ++ ["A"] : List String).length ≤ 32
    ∧ (checkSafety 32 3 "A" (["A", "B"] ++ ["A"]) = some .circularCall
        ↔ specCircular "A" ["A", "B"]) :=
  ⟨by decide, c3_circular_call.1 32 3 ["A", "B"] "A" (by decide)⟩

/-! ### Claim C1: before-hook failure across the three entrypoints -/

def mwA : Middleware := { name := "A" }

def mwB : Middleware :=
  { name := "B", before := fun _ _ _ => .error (.exn "boom") }

def mwC : Middleware := { name := "C" }

def c1Module : Module := {}

def c1Exec : Exec :=
  { registry := fun mid => if mid = "m" then some c1Module else none,
    middlewares := [mwA, mwB, mwC] }

def c1Ctx : Context := derivedCtx none "t" 0 "m"

/-- Counterexample to claim C1 as stated: with middlewares `[A, B, C]` and
`B.before` raising, the sync `call` runs `B.on_error` then `A.on_error`,
but `call_async` (which appends a middleware to the executed list only
*after* its before hook returns) never invokes `B.on_error` — the sync and
async variants are not identical. -/
theorem c1_before_failure_counterexample :
    (call c1Exec "m" [] none "t" 0).1
      = [.before "A", .before "B", .onError "B", .onError "A"]
    ∧ (callAsync c1Exec "m" [] none "t" 0).1
      = [.before "A", .before "B", .onError "A"]
    ∧ Ev.onError "B" ∉ (callAsync c1Exec "m" [] none "t" 0).1 :=
  ⟨rfl, rfl, by decide⟩

/-- Claim C1 (amended): with middlewares `[A, B, C]`, if `A.before`
succeeds, `B.before` raises and `B.on_error` does not recover, then the
sync `call` invokes exactly `B.on_error` then `A.on_error` (no `C.before`,
no after hook, no module execution), while `call_async` and `stream` invoke
exactly `A.on_error`: in the async variants the middleware is added to the
executed list only after its before hook returns, so the raising
middleware's own `on_error` is skipped. -/
theorem c1_before_failure_amended (ex : Exec) (A B C : Middleware)
    (mid : String) (inputs : Dict) (pctx : Option Context) (ft : String)
    (fd : Nat) (m : Module) (ctx : Context)
    (hmws : ex.middlewares = [A, B, C])
    (hpre : preamble ex mid inputs pctx ft fd = .ok (m, ctx))
    (rA : Option Dict) (hA : A.before mid inputs ctx = .ok rA)
    (e : Err) (hB : B.before mid (rA.getD inputs) ctx = .error e)
    (hBnoRec : ∀ d, B.on_error mid inputs e ctx ≠ .ok (some d)) :
    (call ex mid inputs pctx ft fd).1
      = [.before A.name, .before B.name, .onError B.name, .onError A.name]
    ∧ (callAsync ex mid inputs pctx ft fd).1
      = [.before A.name, .before B.name, .onError A.name]
    ∧ (streamRun ex mid inputs pctx ft fd).1
      = [.before A.name, .before B.name, .onError A.name] := by
  have hbef : execute_before ex.middlewares mid inputs ctx
      = ([.before A.name, .before B.name], .error (e, [A, B])) := by
    rw [hmws]
    simp [execute_before, hA, hB]
  have hbefA : asyncBeforeLoop ex.middlewares mid inputs ctx
      = ([.before A.name, .before B.name], .error (e, [A], rA.getD inputs)) := by
    rw [hmws]
    simp [asyncBeforeLoop, hA, hB]
  have hsync : (execute_on_error mid inputs e ctx [A, B]).1
      = [.onError B.name, .onError A.name] := by
    show (execOnErrRev ([A, B] : List Middleware).reverse mid inputs e ctx).1 = _
    have hrev : ([A, B] : List Middleware).reverse = [B, A] := by simp
    rw [hrev]
    rcases hBon : B.on_error mid inputs e ctx with eB | oB
    · rcases hAon : A.on_error mid inputs e ctx with eA | oA
      · simp [execOnErrRev, hBon, hAon]
      · cases oA <;> simp [execOnErrRev, hBon, hAon]
    · cases oB with
      | some d => exact absurd hBon (hBnoRec d)
      | none =>
        rcases hAon : A.on_error mid inputs e ctx with eA | oA
        · simp [execOnErrRev, hBon, hAon]
        · cases oA <;> simp [execOnErrRev, hBon, hAon]
  have hasync : (execute_on_error mid (rA.getD inputs) e ctx [A]).1
      = [.onError A.name] := by
    show (execOnErrRev ([A] : List Middleware).reverse mid (rA.getD inputs) e ctx).1 = _
    have hrev : ([A] : List Middleware).reverse = [A] := by simp
    rw [hrev]
    rcases hAon : A.on_error mid (rA.getD inputs) e ctx with eA | oA
    · simp [execOnErrRev, hAon]
    · cases oA <;> simp [execOnErrRev, hAon]
  refine ⟨?_, ?_, ?_⟩
  · rcases hco : execute_on_error mid inputs e ctx [A, B] with ⟨cevs, orec⟩
    have hc1 : cevs = [.onError B.name, .onError A.name] := by
      rw [hco] at hsync
      exact hsync
    subst hc1
    cases orec <;> simp [call, hpre, hbef, hco]
  · rcases hco : execute_on_error mid (rA.getD inputs) e ctx [A] with ⟨cevs, orec⟩
    have hc1 : cevs = [.onError A.name] := by
      rw [hco] at hasync
      exact hasync
    subst hc1
    cases orec <;> simp [callAsync, hpre, hbefA, hco]
  · rcases hco : execute_on_error mid (rA.getD inputs) e ctx [A] with ⟨cevs, orec⟩
    have hc1 : cevs = [.onError A.name] := by
      rw [hco] at hasync
      exact hasync
    subst hc1
    cases orec <;> simp [streamRun, hpre, hbefA, hco]

/-- Witness for C1 (amended) at the concrete executor `c1Exec`. -/
theorem c1_before_failure_amended_witness :
    (call c1Exec "m" [] none "t" 0).1
      = [.before "A", .before "B", .onError "B", .onError "A"]
    ∧ (callAsync c1Exec "m" [] none "t" 0).1
      = [.before "A", .before "B", .onError "A"]
    ∧ (streamRun c1Exec "m" [] none "t" 0).1
      = [.before "A", .before "B", .onError "A"] :=
  c1_before_failure_amended c1Exec mwA mwB mwC "m" [] none "t" 0 c1Module
    c1Ctx rfl rfl none rfl (.exn "boom") rfl
    (fun d h => by simp [mwB] at h)

/-! ### Claim C2: on-error cascade semantics -/

theorem execOnErrRev_char_some (mid : String) (inputs : Dict) (err : Err)
    (ctx : Context) :
    ∀ (l : List Middleware) (tr : List Ev) (r : Dict),
      execOnErrRev l mid inputs err ctx = (tr, some r) →
      ∃ pre mw post, l = pre ++ mw :: post
        ∧ (∀ mm ∈ pre, ∀ d, mm.on_error mid inputs err ctx ≠ .ok (some d))
        ∧ mw.on_error mid inputs err ctx = .ok (some r)
        ∧ tr = (pre ++ [mw]).map (fun mm => Ev.onError mm.name)
  | [], tr, r, h => by simp [execOnErrRev] at h
  | mw :: rest, tr, r, h => by
    rcases hrest : execOnErrRev rest mid inputs err ctx with ⟨evs, r2⟩
    rcases hmw : mw.on_error mid inputs err ctx with em | om
    · simp only [execOnErrRev, hmw, hrest, Prod.mk.injEq] at h
      obtain ⟨htr, hr2⟩ := h
      obtain ⟨pre, mw2, post, hl, hprev, hrec, htr2⟩ :=
        execOnErrRev_char_some mid inputs err ctx rest evs r
          (by rw [hrest, hr2])
      refine ⟨mw :: pre, mw2, post, by simp [hl], ?_, hrec, ?_⟩
      · intro mm hmm d
        rcases List.mem_cons.mp hmm with h1 | h1
        · subst h1
          rw [hmw]
          simp
        · exact hprev mm h1 d
      · rw [← htr, htr2]
        simp
    · cases om with
      | some recovery =>
        simp only [execOnErrRev, hmw, Prod.mk.injEq] at h
        obtain ⟨htr, hr⟩ := h
        refine ⟨[], mw, rest, by simp, by simp, ?_, by simp [← htr]⟩
        rw [hmw, Option.some.inj hr]
      | none =>
        simp only [execOnErrRev, hmw, hrest, Prod.mk.injEq] at h
        obtain ⟨htr, hr2⟩ := h
        obtain ⟨pre, mw2, post, hl, hprev, hrec, htr2⟩ :=
          execOnErrRev_char_some mid inputs err ctx rest evs r
            (by rw [hrest, hr2])
        refine ⟨mw :: pre, mw2, post, by simp [hl], ?_, hrec, ?_⟩
        · intro mm hmm d
          rcases List.mem_cons.mp hmm with h1 | h1
          · subst h1
            rw [hmw]
            simp
          · exact hprev mm h1 d
        · rw [← htr, htr2]
          simp
--
theorem execOnErrRev_char_none (mid : String) (inputs : Dict) (err : Err)
    (ctx : Context) :
    ∀ (l : List Middleware) (tr : List Ev),
      execOnErrRev l mid inputs err ctx = (tr, none) →
      (∀ mm ∈ l, ∀ d, mm.on_error mid inputs err ctx ≠ .ok (some d))
      ∧ tr = l.map (fun mm => Ev.onError mm.name)
  | [], tr, h => by
    simp only [execOnErrRev, Prod.mk.injEq] at h
    simp [← h.1]
  | mw :: rest, tr, h => by
    rcases hrest : execOnErrRev rest mid inputs err ctx with ⟨evs, r2⟩
    rcases hmw : mw.on_error mid inputs err ctx with em | om
    · simp only [execOnErrRev, hmw, hrest, Prod.mk.injEq] at h
      obtain ⟨htr, hr2⟩ := h
      obtain ⟨hprev, htr2⟩ :=
        execOnErrRev_char_none mid inputs err ctx rest evs (by rw [hrest, hr2])
      refine ⟨?_, by rw [← htr, htr2]; simp⟩
      intro mm hmm d
      rcases List.mem_cons.mp hmm with h1 | h1
      · subst h1
        rw [hmw]
        simp
      · exact hprev mm h1 d
    · cases om with
      | some recovery =>
        simp only [execOnErrRev, hmw, Prod.mk.injEq] at h
        exact Option.noConfusion h.2
      | none =>
        simp only [execOnErrRev, hmw, hrest, Prod.mk.injEq] at h
        obtain ⟨htr, hr2⟩ := h
        obtain ⟨hprev, htr2⟩ :=
          execOnErrRev_char_none mid inputs err ctx rest evs (by rw [hrest, hr2])
        refine ⟨?_, by rw [← htr, htr2]; simp⟩
        intro mm hmm d
        rcases List.mem_cons.mp hmm with h1 | h1
        · subst h1
          rw [hmw]
          simp
        · exact hprev mm h1 d

/-- Claim C2: the on-error cascade visits the executed middlewares in
reverse order; raising or non-recovering handlers are skipped and the
cascade continues; the first handler returning a mapping ends the cascade
and no later handler is invoked; with a recovery the call returns it, and
with none the original exception propagates — both for a module-execution
failure and for a before-chain failure. -/
theorem c2_on_error_cascade :
    (∀ (mid : String) (inputs : Dict) (err : Err) (ctx : Context)
       (executed : List Middleware) (tr : List Ev) (r : Dict),
       execute_on_error mid inputs err ctx executed = (tr, some r) →
       ∃ pre mw post, executed.reverse = pre ++ mw :: post
         ∧ (∀ mm ∈ pre, ∀ d, mm.on_error mid inputs err ctx ≠ .ok (some d))
         ∧ mw.on_error mid inputs err ctx = .ok (some r)
         ∧ tr = (pre ++ [mw]).map (fun mm => Ev.onError mm.name))
    ∧ (∀ (mid : String) (inputs : Dict) (err : Err) (ctx : Context)
       (executed : List Middleware) (tr : List Ev),
       execute_on_error mid inputs err ctx executed = (tr, none) →
       (∀ mm ∈ executed, ∀ d, mm.on_error mid inputs err ctx ≠ .ok (some d))
       ∧ tr = executed.reverse.map (fun mm => Ev.onError mm.name))
    ∧ (∀ (ex : Exec) (mid : String) (inputs : Dict) (pctx : Option Context)
       (ft : String) (fd : Nat) (m : Module) (ctx : Context) (bevs : List Ev)
       (inputs2 : Dict) (executed : List Middleware) (e : Err)
       (cevs : List Ev) (orec : Option Dict),
       preamble ex mid inputs pctx ft fd = .ok (m, ctx) →
       execute_before ex.middlewares mid inputs ctx
         = (bevs, .ok (inputs2, executed)) →
       m.execute inputs2 ctx = .error e →
       execute_on_error mid inputs2 e ctx executed = (cevs, orec) →
       call ex mid inputs pctx ft fd =
         (bevs ++ Ev.exec :: cevs,
          match orec with
          | some recovery => .ok recovery
          | none => .error e))
    ∧ (∀ (ex : Exec) (mid : String) (inputs : Dict) (pctx : Option Context)
       (ft : String) (fd : Nat) (m : Module) (ctx : Context) (bevs : List Ev)
       (orig : Err) (executed : List Middleware) (cevs : List Ev)
       (orec : Option Dict),
       preamble ex mid inputs pctx ft fd = .ok (m, ctx) →
       execute_before ex.middlewares mid inputs ctx
         = (bevs, .error (orig, executed)) →
       execute_on_error mid inputs orig ctx executed = (cevs, orec) →
       call ex mid inputs pctx ft fd =
         (bevs ++ cevs,
          match orec with
          | some recovery => .ok recovery
          | none => .error orig)) := by
  refine ⟨?_, ?_, ?_, ?_⟩
  · intro mid inputs err ctx executed tr r h
    exact execOnErrRev_char_some mid inputs err ctx executed.reverse tr r h
  · intro mid inputs err ctx executed tr h
    obtain ⟨hno, htr⟩ := execOnErrRev_char_none mid inputs err ctx executed.reverse tr h
    exact ⟨fun mm hmm d => hno mm (List.mem_reverse.mpr hmm) d, htr⟩
  · intro ex mid inputs pctx ft fd m ctx bevs inputs2 executed e cevs orec
      hpre hbef hexe hco
    have hsteps : steps789 ex m mid inputs2 ctx = ([.exec], .error e) := by
      simp [steps789, hexe]
    by_cases hemp : executed.isEmpty
    · have hnil : executed = [] := List.isEmpty_iff.mp hemp
      subst hnil
      have hco2 : (([], none) : List Ev × Option Dict) = (cevs, orec) := by
        rw [← hco]
        rfl
      obtain ⟨hc, ho⟩ := Prod.mk.injEq .. ▸ hco2
      simp [call, hpre, hbef, hsteps, ← hc, ← ho]
    · cases orec <;>
        simp [call, hpre, hbef, hsteps, hco, hemp]
  · intro ex mid inputs pctx ft fd m ctx bevs orig executed cevs orec
      hpre hbef hco
    cases orec <;> simp [call, hpre, hbef, hco]

def c2FailModule : Module := { execute := fun _ _ => .error (.exn "ex") }

def mwR : Middleware :=
  { name := "R", on_error := fun _ _ _ _ => .ok (some [("recovered", .vbool true)]) }

def c2Exec : Exec :=
  { registry := fun mid => if mid = "m" then some c2FailModule else none,
    middlewares := [mwR] }

def c2Ctx : Context := derivedCtx none "t" 0 "m"

/-- Witness for C2: a failing module recovered by the middleware `R`. -/
theorem c2_on_error_cascade_witness :
    call c2Exec "m" [] none "t" 0
      = ([.before "R", .exec, .onError "R"], .ok [("recovered", .vbool true)]) :=
  c2_on_error_cascade.2.2.1 c2Exec "m" [] none "t" 0 c2FailModule c2Ctx
    [.before "R"] [] [mwR] (.exn "ex") [.onError "R"]
    (some [("recovered", .vbool true)]) rfl rfl rfl rfl

/-! ### Claim C5: redaction in the call pipeline -/

def c5ISchema : InputSchema :=
  { validate := fun _ => true, jsonSchema := c5Schema }

def c5Module : Module := { input_schema := some c5ISchema }

def c5Exec : Exec :=
  { registry := fun mid => if mid = "login" then some c5Module else none }

def c5Inputs : Dict := [("username", .vstr "a"), ("password", .vstr "s")]

def c5Ctx : Context :=
  { derivedCtx none "t" 0 "login" with
    redacted_inputs := some (redact_sensitive c5Inputs c5Schema) }

/-- Claim C5 (amended): `redact_sensitive` replaces exactly the *non-null*
values at schema-sensitive leaves (recursing into nested objects and
element-wise into sensitive-item arrays) and at top-level `_secret_` keys —
null leaves are passed through unchanged; after validation the derived
context's `redacted_inputs` is exactly `redact_sensitive` of the inputs
against the module's JSON schema, and (with no middleware installed) the
module itself is executed on the raw, unredacted inputs. -/
theorem c5_redaction_amended :
    (∀ (d : Dict) (s : Schema), redact_sensitive d s = specRedact false d s)
    ∧ (∀ (ex : Exec) (mid : String) (inputs : Dict) (pctx : Option Context)
       (ft : String) (fd : Nat) (m : Module) (ctx : Context)
       (isch : InputSchema),
       preamble ex mid inputs pctx ft fd = .ok (m, ctx) →
       m.input_schema = some isch →
       ctx.redacted_inputs = some (redact_sensitive inputs isch.jsonSchema))
    ∧ (∀ (ex : Exec) (mid : String) (inputs : Dict) (pctx : Option Context)
       (ft : String) (fd : Nat) (m : Module) (ctx : Context),
       ex.middlewares = [] →
       preamble ex mid inputs pctx ft fd = .ok (m, ctx) →
       call ex mid inputs pctx ft fd = steps789 ex m mid inputs ctx) := by
  refine ⟨redact_sensitive_eq_specRedact, ?_, ?_⟩
  · intro ex mid inputs pctx ft fd m ctx isch hpre hsch
    simp only [preamble] at hpre
    cases hcs : checkSafety ex.max_call_depth ex.max_module_repeat mid
        (derivedCtx pctx ft fd mid).call_chain with
    | some e => simp [hcs] at hpre
    | none =>
      simp only [hcs] at hpre
      cases hreg : ex.registry mid with
      | none => simp [hreg] at hpre
      | some m2 =>
        simp only [hreg] at hpre
        split at hpre
        · simp at hpre
        · cases hisch : m2.input_schema with
          | none =>
            simp only [hisch, Except.ok.injEq, Prod.mk.injEq] at hpre
            rw [← hpre.1, hisch] at hsch
            cases hsch
          | some isch2 =>
            simp only [hisch] at hpre
            split at hpre
            · simp at hpre
            · simp only [Except.ok.injEq, Prod.mk.injEq] at hpre
              obtain ⟨hm, hctx⟩ := hpre
              have hii : isch2 = isch := by
                rw [← hm, hisch] at hsch
                exact Option.some.inj hsch
              rw [← hctx, ← hii]
  · intro ex mid inputs pctx ft fd m ctx hmw hpre
    rcases hst : steps789 ex m mid inputs ctx with ⟨evs, res⟩
    have hbe : execute_before ex.middlewares mid inputs ctx
        = ([], .ok (inputs, [])) := by
      rw [hmw]
      rfl
    cases res <;> simp [call, hpre, hbe, hst]

/-- Witness for C5 (amended) at the spec's login example. -/
theorem c5_redaction_amended_witness :
    c5Ctx.redacted_inputs = some (redact_sensitive c5Inputs c5Schema)
    ∧ redact_sensitive c5Inputs c5Schema
        = [("username", .vstr "a"), ("password", .vstr REDACTED_VALUE)] :=
  ⟨c5_redaction_amended.2.1 c5Exec "login" c5Inputs none "t" 0 c5Module c5Ctx
      c5ISchema rfl rfl, rfl⟩

/-! ### Claim C6: Registry.register and the on_load hook -/

/-- A registry module: `onLoad = none` models a module with no `on_load`
attribute, `some true` a hook that runs fine, `some false` a hook that
raises. -/
structure RegModule where
  onLoad : Option Bool := none

inductive RegEvent where
  | register : String → RegEvent
  | unregister : String → RegEvent
  deriving DecidableEq

inductive RegErr where
  | invalidInput : RegErr
  | onLoadError : RegErr
  deriving DecidableEq

/-- Dict lookup in the modules mapping. -/
def regGet : List (String × RegModule) → String → Option RegModule
  | [], _ => none
  | kv :: rest, k => if kv.1 = k then some kv.2 else regGet rest k

/-- Python `dict.pop(key, None)`: removes the (unique) binding of the key. -/
def removeKey : List (String × RegModule) → String → List (String × RegModule)
  | [], _ => []
  | kv :: rest, k => if kv.1 = k then rest else kv :: removeKey rest k

structure Registry where
  modules : List (String × RegModule) := []

def Registry.get (r : Registry) (module_id : String) : Option RegModule :=
  regGet r.modules module_id

/-- Embedding of `Registry.register` (src/apcore/registry/registry.py lines
227-255): empty-id check, duplicate check, insertion, `on_load` invocation
with removal-and-propagation on failure, then the register event. -/
def Registry.register (r : Registry) (module_id : String) (m : RegModule) :
    Registry × List RegEvent × Option RegErr :=
  if module_id = "" then (r, [], some .invalidInput)
  else if (regGet r.modules module_id).isSome then (r, [], some .invalidInput)
  else
    match m.onLoad with
    | some false =>
      ({ modules := removeKey (r.modules ++ [(module_id, m)]) module_id },
       [], some .onLoadError)
    | _ => ({ modules := r.modules ++ [(module_id, m)] },
            [.register module_id], none)

theorem removeKey_restore (mods : List (String × RegModule)) (mid : String)
    (m : RegModule) (h : regGet mods mid = none) :
    removeKey (mods ++ [(mid, m)]) mid = mods := by
  induction mods with
  | nil => simp [removeKey]
  | cons kv rest ih =>
    have hne : ¬ kv.1 = mid := by
      intro hc
      simp [regGet, hc] at h
    have hr : regGet rest mid = none := by
      simpa [regGet, hne] using h
    simp [removeKey, hne, ih hr]

theorem regGet_append_self (mods : List (String × RegModule)) (mid : String)
    (m : RegModule) (h : regGet mods mid = none) :
    regGet (mods ++ [(mid, m)]) mid = some m := by
  induction mods with
  | nil => simp [regGet]
  | cons kv rest ih =>
    have hne : ¬ kv.1 = mid := by
      intro hc
      simp [regGet, hc] at h
    have hr : regGet rest mid = none := by
      simpa [regGet, hne] using h
    simp [regGet, hne, ih hr]

/-- Claim C6: for a fresh non-empty module id, a raising `on_load` aborts
registration — the registry state is exactly as before, no register event
fires, and the error propagates; when `on_load` succeeds or is absent the
module is stored (get finds it) and the register event fires. -/
theorem c6_register_onload :
    (∀ (r : Registry) (mid : String) (m : RegModule),
       mid ≠ "" → r.get mid = none → m.onLoad = some false →
       Registry.register r mid m = (r, [], some .onLoadError))
    ∧ (∀ (r : Registry) (mid : String) (m : RegModule),
       mid ≠ "" → r.get mid = none → m.onLoad ≠ some false →
       Registry.register r mid m
         = ({ modules := r.modules ++ [(mid, m)] }, [.register mid], none)
       ∧ (Registry.register r mid m).1.get mid = some m) := by
  constructor
  · intro r mid m hne hget hol
    simp only [Registry.register, if_neg hne, Registry.get] at *
    rw [hget]
    simp only [Option.isSome_none, Bool.false_eq_true, if_false, hol]
    rw [removeKey_restore r.modules mid m hget]
  · intro r mid m hne hget hol
    have hreg : Registry.register r mid m
        = ({ modules := r.modules ++ [(mid, m)] }, [.register mid], none) := by
      simp only [Registry.register, if_neg hne, Registry.get] at *
      rw [hget]
      simp only [Option.isSome_none, Bool.false_eq_true, if_false]
    refine ⟨hreg, ?_⟩
    rw [hreg]
    exact regGet_append_self r.modules mid m hget

def c6Bad : RegModule := { onLoad := some false }

def c6Good : RegModule := { onLoad := none }

/-- Witness for C6 on the empty registry. -/
theorem c6_register_onload_witness :
    Registry.register (Registry.mk []) "m" c6Bad
      = (Registry.mk [], [], some .onLoadError)
    ∧ Registry.register (Registry.mk []) "m" c6Good
      = (Registry.mk [("m", c6Good)], [.register "m"], none) :=
  ⟨c6_register_onload.1 (Registry.mk []) "m" c6Bad (by decide) rfl rfl,
   (c6_register_onload.2 (Registry.mk []) "m" c6Good (by decide) rfl
      (by simp [c6Good])).1⟩

/-! ### Claim C10: the per-module async-kind cache -/

def cacheLookup : List (String × Bool) → String → Option Bool
  | [], _ => none
  | kv :: rest, k => if kv.1 = k then some kv.2 else cacheLookup rest k

/-- Embedding of `Executor._is_async_module` (src/apcore/executor.py lines
399-406): a cache hit returns the cached flag without consulting the
module; a miss computes the module's flag and stores it.  `moduleIsAsync`
stands for `inspect.iscoroutinefunction(module.execute)` of the module
currently registered under the id. -/
def isAsyncModule (cache : List (String × Bool)) (module_id : String)
    (moduleIsAsync : Bool) : Bool × List (String × Bool) :=
  match cacheLookup cache module_id with
  | some b => (b, cache)
  | none => (moduleIsAsync, cache ++ [(module_id, moduleIsAsync)])

/-- Executor operations that could conceivably touch the async cache:
`_is_async_module` itself, registry register/unregister, and anything
else (`other`). -/
inductive ExOp where
  | isAsync : String → Bool → ExOp
  | registryRegister : String → ExOp
  | registryUnregister : String → ExOp
  | other : ExOp

structure ExState where
  cache : List (String × Bool) := []
  regIds : List String := []

/-- One executor operation: only `_is_async_module` reads or writes the
cache — `Registry.register`/`unregister` update the registry contents and
never touch `_async_cache` (there is no invalidation code path). -/
def stepOp (st : ExState) (op : ExOp) : ExState × Option Bool :=
  match op with
  | .isAsync mid v =>
    match isAsyncModule st.cache mid v with
    | (b, c2) => ({ st with cache := c2 }, some b)
  | .registryRegister mid => ({ st with regIds := st.regIds ++ [mid] }, none)
  | .registryUnregister mid => ({ st with regIds := st.regIds.erase mid }, none)
  | .other => (st, none)

def runOps (st : ExState) : List ExOp → ExState
  | [] => st
  | op :: rest => runOps (stepOp st op).1 rest

theorem cacheLookup_append_self (c : List (String × Bool)) (mid : String)
    (v : Bool) (h : cacheLookup c mid = none) :
    cacheLookup (c ++ [(mid, v)]) mid = some v := by
  induction c with
  | nil => simp [cacheLookup]
  | cons kv rest ih =>
    have hne : ¬ kv.1 = mid := by
      intro hc
      simp [cacheLookup, hc] at h
    have hr : cacheLookup rest mid = none := by
      simpa [cacheLookup, hne] using h
    simp [cacheLookup, hne, ih hr]

theorem cacheLookup_append_of_some (c : List (String × Bool)) (k : String)
    (b : Bool) (kv : String × Bool) (h : cacheLookup c k = some b) :
    cacheLookup (c ++ [kv]) k = some b := by
  induction c with
  | nil => simp [cacheLookup] at h
  | cons kv2 rest ih =>
    by_cases hk : kv2.1 = k
    · simp only [cacheLookup, hk, if_true] at h
      simp [cacheLookup, hk, h]
    · simp only [cacheLookup, hk, if_false] at h
      simp [cacheLookup, hk, ih h]

theorem isAsyncModule_preserves (c : List (String × Bool)) (mid : String)
    (v : Bool) (k : String) (b : Bool) (h : cacheLookup c k = some b) :
    cacheLookup (isAsyncModule c mid v).2 k = some b := by
  cases hl : cacheLookup c mid with
  | some b2 => simp [isAsyncModule, hl, h]
  | none => simp [isAsyncModule, hl, cacheLookup_append_of_some c k b _ h]

theorem runOps_preserves :
    ∀ (ops : List ExOp) (st : ExState) (k : String) (b : Bool),
      cacheLookup st.cache k = some b →
      cacheLookup (runOps st ops).cache k = some b
  | [], st, k, b, h => h
  | op :: rest, st, k, b, h => by
    refine runOps_preserves rest (stepOp st op).1 k b ?_
    cases op with
    | isAsync mid v =>
      rcases hi : isAsyncModule st.cache mid v with ⟨bb, c2⟩
      have := isAsyncModule_preserves st.cache mid v k b h
      rw [hi] at this
      simp [stepOp, hi, this]
    | registryRegister mid => simpa [stepOp] using h
    | registryUnregister mid => simpa [stepOp] using h
    | other => simpa [stepOp] using h

/-- Claim C10: the async-kind cache is write-once — a hit returns the
cached flag and leaves the state untouched regardless of the module flag
passed; a miss stores the computed flag; no operation (register,
unregister, or anything else) ever removes or updates an entry, so every
later `_is_async_module` call for that id returns the first cached flag. -/
theorem c10_async_cache_write_once :
    (∀ (st : ExState) (mid : String) (b v : Bool),
       cacheLookup st.cache mid = some b →
       stepOp st (.isAsync mid v) = (st, some b))
    ∧ (∀ (st : ExState) (mid : String) (v : Bool),
       cacheLookup st.cache mid = none →
       (stepOp st (.isAsync mid v)).2 = some v
       ∧ cacheLookup (stepOp st (.isAsync mid v)).1.cache mid = some v)
    ∧ (∀ (ops : List ExOp) (st : ExState) (mid : String) (b : Bool),
       cacheLookup st.cache mid = some b →
       cacheLookup (runOps st ops).cache mid = some b)
    ∧ (∀ (st : ExState) (mid : String) (v0 : Bool) (ops : List ExOp) (v1 : Bool),
       cacheLookup st.cache mid = none →
       (stepOp (runOps (stepOp st (.isAsync mid v0)).1 ops) (.isAsync mid v1)).2
         = some v0) := by
  have hhit : ∀ (st : ExState) (mid : String) (b v : Bool),
      cacheLookup st.cache mid = some b →
      stepOp st (.isAsync mid v) = (st, some b) := by
    intro st mid b v h
    simp [stepOp, isAsyncModule, h]
  have hmiss : ∀ (st : ExState) (mid : String) (v : Bool),
      cacheLookup st.cache mid = none →
      (stepOp st (.isAsync mid v)).2 = some v
      ∧ cacheLookup (stepOp st (.isAsync mid v)).1.cache mid = some v := by
    intro st mid v h
    constructor
    · simp [stepOp, isAsyncModule, h]
    · simp [stepOp, isAsyncModule, h, cacheLookup_append_self st.cache mid v h]
  refine ⟨hhit, hmiss, fun ops => runOps_preserves ops, ?_⟩
  intro st mid v0 ops v1 h
  have h1 : cacheLookup (stepOp st (.isAsync mid v0)).1.cache mid = some v0 :=
    (hmiss st mid v0 h).2
  have h2 : cacheLookup (runOps (stepOp st (.isAsync mid v0)).1 ops).cache mid
      = some v0 :=
    runOps_preserves ops _ mid v0 h1
  rw [hhit _ mid v0 v1 h2]

/-- Witness for C10: first query caches `true`; unregistering and
re-registering under the same id does not invalidate it, and a later query
passing `false` still returns `true`. -/
theorem c10_async_cache_write_once_witness :
    cacheLookup (ExState.mk [] []).cache "m" = none
    ∧ (stepOp (runOps (stepOp (ExState.mk [] []) (.isAsync "m" true)).1
        [.registryUnregister "m", .registryRegister "m"])
        (.isAsync "m" false)).2 = some true :=
  ⟨rfl, c10_async_cache_write_once.2.2.2 (ExState.mk [] []) "m" true
    [.registryUnregister "m", .registryRegister "m"] false rfl⟩

end APCore
